import Mathlib

/-
Verification development for the rs2know code-analysis tool.

The Rust sources are shallowly embedded: the revision-continuity check, the
re-analysis predicate, the git history accessors, the line classifier, the
incremental report merge, the update-run state machine and the bounded retry
loop become executable Lean functions, and the theorems below check the
specification sentences against them.
-/

namespace Rs2Know

/-! ## History tracker (src/analysis.rs) -/
/-- Loop body of `check_version_continuity` in src/analysis.rs: walks the
history tracking whether the analyzed block has been entered (`found_first`)
and whether it has been exited (`continuous = false`); an analyzed id seen
after the block was exited returns `false`. The analyzed set is passed as its
membership test `f` (the Rust code builds a `HashSet` and calls `contains`). -/
def continuityGo (f : String → Bool) : List String → Bool → Bool → Bool
  | [], _, _ => true
  | c :: rest, found_first, continuous =>
    if f c then
      if found_first then
        if continuous then continuityGo f rest found_first continuous else false
      else continuityGo f rest true continuous
    else
      if found_first then continuityGo f rest found_first false
      else continuityGo f rest found_first continuous

/-- Embeds `check_version_continuity` (src/analysis.rs, lines 70-89): an empty
analyzed set is trivially continuous, otherwise the history is walked with
`continuityGo` starting outside the analyzed block. -/
def check_version_continuity (versions history : List String) : Bool :=
  if versions.isEmpty then true
  else continuityGo (fun c => versions.contains c) history false true

/-- Some element of `l` satisfies `f` (proof-side helper). -/
def hasAnalyzed (f : String → Bool) (l : List String) : Bool :=
  l.any f

/-- Some element of `l` failing `f` is later followed by one satisfying `f`
(proof-side helper). -/
def hasGapThenAnalyzed (f : String → Bool) : List String → Bool
  | [] => false
  | x :: r =>
    if f x then hasGapThenAnalyzed f r
    else hasAnalyzed f r || hasGapThenAnalyzed f r

/-- Some element of `l` satisfying `f` is later followed by one failing `f`
which is again followed by one satisfying `f` (proof-side helper). -/
def hasScatter (f : String → Bool) : List String → Bool
  | [] => false
  | x :: r =>
    if f x then hasGapThenAnalyzed f r || hasScatter f r
    else hasScatter f r

/-- States the claim's discontinuity pattern: walking the history in order,
an id in the analyzed set appears again after an id not in the set that
followed an id in the set. -/
def scatteredPattern (versions history : List String) : Prop :=
  ∃ l₁ a l₂ b l₃ c l₄,
    history = l₁ ++ (a :: (l₂ ++ (b :: (l₃ ++ (c :: l₄))))) ∧
    versions.contains a = true ∧ versions.contains b = false ∧
    versions.contains c = true

/-! ## Data model (src/models.rs; the two version-tracking fields are the ones
src/analysis.rs and src/utils.rs read and write on `ProjectAnalysis`) -/
structure CoreStruct where
  name : String
  description : String
deriving DecidableEq, Repr

structure FunctionDetail where
  name : String
  description : String
  parameters : List String
  return_type : String
  complexity : String
deriving DecidableEq, Repr

structure AIAnalysis where
  main_functions : List String
  core_structs : List CoreStruct
  error_types : List String
  functions_details : List FunctionDetail
  code_complexity : String
deriving DecidableEq, Repr

structure FileAnalysis where
  file_path : String
  loc : Nat
  blank_lines : Nat
  comment_lines : Nat
  code_lines : Nat
  ai_analysis : Option AIAnalysis
deriving DecidableEq, Repr

structure ProjectSummary where
  total_files : Nat
  total_loc : Nat
  main_features : List String
  code_architecture : String
  key_components : List String
  tech_stack : List String
  recommendations : List String
deriving DecidableEq, Repr

structure ProjectAnalysis where
  summary : ProjectSummary
  file_analyses : List FileAnalysis
  git_version : Option String
  analyzed_versions : Option (List String)
deriving DecidableEq, Repr

/-- Embeds `needs_reanalysis` (src/analysis.rs, lines 28-48). -/
def needs_reanalysis (current_version : Option String)
    (stored_analysis : Option ProjectAnalysis) : Bool :=
  match current_version, stored_analysis with
  | none, _ => true
  | some _, none => true
  | some current, some analysis =>
    match analysis.analyzed_versions with
    | some analyzed => !(analyzed.contains current)
    | none =>
      match analysis.git_version with
      | none => true
      | some stored => !(stored == current)

/-! ## Git accessors (src/analysis.rs)

A project's version-control state is modelled by whether a `.git` directory
exists and by the outcomes of the two libgit2 call chains the code performs:
resolving HEAD to a commit id, and walking the revision history. -/
structure GitState where
  hasGitDir : Bool
  headCommit : Except String String
  revwalk : Except String (List String)

/-- Embeds `get_git_version` (src/analysis.rs, lines 17-25): absent `.git`
directory yields `Ok(None)`; otherwise the HEAD resolution's outcome is
propagated, an error included. -/
def get_git_version (g : GitState) : Except String (Option String) :=
  if !g.hasGitDir then Except.ok none
  else
    match g.headCommit with
    | Except.ok c => Except.ok (some c)
    | Except.error e => Except.error e

/-- Embeds `get_git_history` (src/analysis.rs, lines 51-67): absent `.git`
directory yields `Ok(vec![])`; otherwise the revwalk's outcome is propagated,
an error included. -/
def get_git_history (g : GitState) : Except String (List String) :=
  if !g.hasGitDir then Except.ok []
  else g.revwalk

/-! ## Line classifier (src/main.rs, `analyze_code`, lines 481-523)

Lines are modelled as lists of characters so that every operation is
structurally recursive and evaluates inside the kernel. `rustLines` mirrors
Rust's `str::lines` (split on a newline, drop a final empty segment, strip a
carriage return that preceded a newline); `trimChars` mirrors `str::trim`
restricted to the ASCII whitespace the sources can contain. -/
def isWhitespaceChar (c : Char) : Bool :=
  c == ' ' || c == '\t' || c == '\n' || c == '\r'

def trimChars (l : List Char) : List Char :=
  ((l.dropWhile isWhitespaceChar).reverse.dropWhile isWhitespaceChar).reverse

def splitParts : List Char → List (List Char)
  | [] => [[]]
  | c :: cs =>
    if c = '\n' then [] :: splitParts cs
    else
      match splitParts cs with
      | [] => [[c]]
      | p :: rest => (c :: p) :: rest

def stripTrailingCR (l : List Char) : List Char :=
  match l.reverse with
  | '\r' :: rest => rest.reverse
  | _ => l

def rustLinesAux : List (List Char) → List (List Char)
  | [] => []
  | [last] => if last.isEmpty then [] else [last]
  | p :: rest => stripTrailingCR p :: rustLinesAux rest

def rustLines (s : String) : List (List Char) :=
  rustLinesAux (splitParts s.toList)

inductive LineClass where
  | blank
  | comment
  | code
deriving DecidableEq, BEq, Repr

def commentOpener : List Char := ['/', '*']

def commentCloser : List Char := ['*', '/']

def lineCommentMarker : List Char := ['/', '/']

/-- Substring test used for `trimmed.contains("*/")`. -/
def containsSeq (pat : List Char) : List Char → Bool
  | [] => pat.isEmpty
  | c :: cs => pat.isPrefixOf (c :: cs) || containsSeq pat cs

/-- One iteration of the `analyze_code` loop body in src/main.rs on an
already-trimmed line: returns the line's class and the block-comment state
for the next line. -/
def lineStep (in_block : Bool) (t : List Char) : LineClass × Bool :=
  if t.isEmpty then (LineClass.blank, in_block)
  else if in_block then (LineClass.comment, !(containsSeq commentCloser t))
  else if commentOpener.isPrefixOf t then
    (LineClass.comment, !(containsSeq commentCloser t))
  else if lineCommentMarker.isPrefixOf t then (LineClass.comment, false)
  else (LineClass.code, false)

def classify : Bool → List (List Char) → List LineClass
  | _, [] => []
  | in_block, l :: rest =>
    match lineStep in_block (trimChars l) with
    | (cls, nb) => cls :: classify nb rest

structure CodeStats where
  loc : Nat
  blank_lines : Nat
  comment_lines : Nat
  code_lines : Nat
deriving DecidableEq, Repr

def statsOf : List LineClass → CodeStats
  | [] => ⟨0, 0, 0, 0⟩
  | c :: r =>
    let s := statsOf r
    match c with
    | LineClass.blank => ⟨s.loc + 1, s.blank_lines + 1, s.comment_lines, s.code_lines⟩
    | LineClass.comment => ⟨s.loc + 1, s.blank_lines, s.comment_lines + 1, s.code_lines⟩
    | LineClass.code => ⟨s.loc + 1, s.blank_lines, s.comment_lines, s.code_lines + 1⟩

/-- Embeds `analyze_code` (src/main.rs, lines 481-523): per-line counts with
block-comment state carried across lines. -/
def analyze_code (content : String) : CodeStats :=
  statsOf (classify false (rustLines content))

/-- Collects the trimmed code-only lines, with the same classification and
block-comment state as `analyze_code`. -/
def codeStream : Bool → List (List Char) → List (List Char)
  | _, [] => []
  | in_block, l :: rest =>
    match lineStep in_block (trimChars l) with
    | (LineClass.code, nb) => trimChars l :: codeStream nb rest
    | (LineClass.blank, nb) => codeStream nb rest
    | (LineClass.comment, nb) => codeStream nb rest

/-- Modelled from the spec: the Fingerprinter of spec section 4.1 is absent
from src/ (the code under src/ computes only line statistics and keeps no
content hash). Per the spec it accumulates the canonical code-only byte
stream - trimmed code lines, newline-joined, blank and comment lines
excluded - and hashes it with a cryptographic digest. The digest is
abstracted: the hash is represented by the canonical stream itself, so two
hashes are equal exactly when the streams are equal (a collision-free
digest). -/
def fingerprint (text : String) : List (List Char) :=
  codeStream false (rustLines text)

/-- States the claim's side condition "differ only in whitespace": erasing
every whitespace character leaves the two texts identical, and they are not
the same text. -/
def differOnlyInWhitespace (t1 t2 : String) : Bool :=
  (t1.toList.filter fun c => !(isWhitespaceChar c))
      == (t2.toList.filter fun c => !(isWhitespaceChar c))
    && !(t1 == t2)

/-- States the claim's side condition "differ only in comment-only lines":
same number of lines, and every line is either identical in both texts or a
comment line in both texts. -/
def differOnlyInCommentLines (t1 t2 : String) : Bool :=
  let l1 := rustLines t1
  let l2 := rustLines t2
  let c1 := classify false l1
  let c2 := classify false l2
  (l1.length == l2.length) &&
    (List.range l1.length).all fun i =>
      l1.get? i == l2.get? i ||
        (c1.get? i == some LineClass.comment && c2.get? i == some LineClass.comment)

/-- Trimmed, blank-free view of a line list; the code stream depends only on
this view. -/
def trimmedNonBlank (L : List (List Char)) : List (List Char) :=
  (L.map trimChars).filter fun t => !t.isEmpty

/-- Code stream over lines that are already trimmed and non-blank. -/
def streamT : Bool → List (List Char) → List (List Char)
  | _, [] => []
  | in_block, t :: rest =>
    match lineStep in_block t with
    | (LineClass.code, nb) => t :: streamT nb rest
    | (LineClass.blank, nb) => streamT nb rest
    | (LineClass.comment, nb) => streamT nb rest

/-! ## Incremental report update (src/main.rs, `update_report`, lines 798-868)

The filesystem is modelled by the `.rs` file contents at HEAD (the tree the
code diffs against) and in the working directory. `modified_files` embeds the
`diff_tree_to_workdir` delta collection (lines 804-818): the `.rs` paths
whose content differs between the two. The merge loop (lines 828-852) then
rewrites each stored record; the collaborator outcome is the `ai` parameter
and the paths it is invoked for are returned alongside. -/
structure Workspace where
  headFs : List (String × String)
  workFs : List (String × String)

def lookupFile (fs : List (String × String)) (p : String) : Option String :=
  (fs.find? fun e => e.1 == p).map fun e => e.2

/-- Tests `path.extension() == "rs"`, via the reversed character list. -/
def isRsPath (p : String) : Bool :=
  ['s', 'r', '.'].isPrefixOf p.toList.reverse

def modified_files (ws : Workspace) : List String :=
  (((ws.headFs ++ ws.workFs).map Prod.fst).dedup).filter fun p =>
    isRsPath p && !(lookupFile ws.headFs p == lookupFile ws.workFs p)

/-- Condition `!args.skip_ai && !args.api_key.is_empty()` guarding every
collaborator call. -/
def aiEnabled (skip_ai : Bool) (api_key : String) : Bool :=
  !skip_ai && !(api_key == "")

/-- One iteration of the merge loop of `update_report` in src/main.rs: a
record whose path is in the diff and whose file still exists gets fresh
stats and (when AI is enabled) a fresh collaborator payload; every other
record is kept unchanged. Returns the resulting record and the list of
paths the collaborator was invoked for. -/
def mergeStep (ws : Workspace) (skip_ai : Bool) (api_key : String)
    (ai : String → Option AIAnalysis) (a : FileAnalysis) :
    FileAnalysis × List String :=
  if a.file_path ∈ modified_files ws then
    match lookupFile ws.workFs a.file_path with
    | some content =>
      let st := analyze_code content
      let base : FileAnalysis :=
        { a with loc := st.loc, blank_lines := st.blank_lines,
                 comment_lines := st.comment_lines, code_lines := st.code_lines }
      if aiEnabled skip_ai api_key then
        ({ base with ai_analysis := ai content }, [a.file_path])
      else (base, [])
    | none => (a, [])
  else (a, [])

structure MergeOut where
  analyses : List FileAnalysis
  calls : List String
deriving DecidableEq, Repr

/-- Embeds `update_report` of src/main.rs restricted to its per-file merge:
an empty diff returns the old records untouched with no collaborator calls
(the early return at line 820), otherwise each record goes through
`mergeStep`. -/
def update_report_merge (ws : Workspace) (old : ProjectAnalysis)
    (skip_ai : Bool) (api_key : String) (ai : String → Option AIAnalysis) :
    MergeOut :=
  if (modified_files ws).isEmpty then ⟨old.file_analyses, []⟩
  else
    ⟨old.file_analyses.map fun a => (mergeStep ws skip_ai api_key ai a).1,
     old.file_analyses.flatMap fun a => (mergeStep ws skip_ai api_key ai a).2⟩

def sampleSummary : ProjectSummary := ⟨0, 0, [], "", [], [], []⟩

def samplePayload : AIAnalysis := ⟨[("f")], [], [], [], ("simple")⟩

def sampleRecord : FileAnalysis := ⟨("a.rs"), 1, 0, 0, 1, some samplePayload⟩

def goneRecord : FileAnalysis := ⟨("gone.rs"), 1, 0, 0, 1, some samplePayload⟩

/-! ## Fresh analysis run (src/main.rs, `main`, lines 140-222)

The walk's result - the discovered `.rs` files with their contents - is the
`files` parameter; for each file the stats are computed and, when AI analysis
is enabled, the collaborator is invoked. The second component records the
paths the collaborator is invoked for. -/
def main_run (files : List (String × String)) (skip_ai : Bool)
    (api_key : String) (ai : String → Option AIAnalysis) :
    List FileAnalysis × List String :=
  (files.map fun f =>
    let st := analyze_code f.2
    ⟨f.1, st.loc, st.blank_lines, st.comment_lines, st.code_lines,
      if aiEnabled skip_ai api_key then ai f.2 else none⟩,
   files.flatMap fun f => if aiEnabled skip_ai api_key then [f.1] else [])

/-! ## Version-history update run (src/analysis.rs, `update_report`, lines 156-243)

The persisted configuration holds an optional `output` value which may or
may not deserialize into a `ProjectAnalysis` (the code attempts
`serde_json::from_value` and silently skips updates when it fails).
`handle_default_analysis` is referenced by src/analysis.rs but absent from
src/; following the spec it is the external full-analysis collaborator, and
its outcome is the `analyze` parameter (`analyze none` is the run on the
working tree, `analyze (some v)` the run after checking out revision `v`).
The run returns the ordered trace of events - checkouts, collaborator
invocations and `config.save` calls with the exact configuration written -
together with its final outcome. -/
inductive ConfigOutput where
  | parsable (a : ProjectAnalysis)
  | garbage (raw : String)
deriving DecidableEq, Repr

def parseOutput : ConfigOutput → Option ProjectAnalysis
  | ConfigOutput.parsable a => some a
  | ConfigOutput.garbage _ => none

structure Config where
  output : Option ConfigOutput
deriving DecidableEq, Repr

/-- Embeds lines 160-173 of src/analysis.rs: the analyzed versions stored in
the configuration's output, extended with its `git_version` when absent from
the list. -/
def collectAnalyzed (cfg : Config) : List String :=
  match cfg.output with
  | none => []
  | some o =>
    match parseOutput o with
    | none => []
    | some analysis =>
      let vs := analysis.analyzed_versions.getD []
      match analysis.git_version with
      | none => vs
      | some v => if vs.contains v then vs else vs ++ [v]

inductive RunEvent where
  | analyze (target : Option String)
  | switchTo (v : String)
  | cleanup (v : String)
  | save (c : Config)
deriving DecidableEq, Repr

/-- Embeds the per-version loop of `update_report` (src/analysis.rs, lines
208-240): check out the version, run the full analysis, clean up, then - when
the stored output parses - append the version to `analyzed_versions` and save
the configuration, before moving to the next version. A failed analysis
aborts the loop after the cleanup, before any save for that version. -/
def loopGo (analyze : Option String → Except String Unit) :
    Config → List String → List RunEvent × (Config × Except String Unit)
  | cfg, [] => ([], (cfg, Except.ok ()))
  | cfg, v :: rest =>
    let evs := [RunEvent.switchTo v, RunEvent.analyze (some v), RunEvent.cleanup v]
    match analyze (some v) with
    | Except.error e => (evs, (cfg, Except.error e))
    | Except.ok _ =>
      match cfg.output with
      | some o =>
        match parseOutput o with
        | some a =>
          let a2 := { a with
            analyzed_versions := some (a.analyzed_versions.getD [] ++ [v]) }
          let cfg2 : Config := { cfg with output := some (ConfigOutput.parsable a2) }
          let r := loopGo analyze cfg2 rest
          (evs ++ (RunEvent.save cfg2 :: r.1), r.2)
        | none =>
          let r := loopGo analyze cfg rest
          (evs ++ r.1, r.2)
      | none =>
        let r := loopGo analyze cfg rest
        (evs ++ r.1, r.2)

/-- Embeds `update_report` of src/analysis.rs: load history (errors
propagate), collect the analyzed versions, and either take the discontinuity
branch - full re-analysis, then save the stored output with
`analyzed_versions` set to exactly the current revision - or analyze each
not-yet-analyzed version in history order via `loopGo`. -/
def update_report_run (cfg : Config) (git : GitState)
    (analyze : Option String → Except String Unit) :
    List RunEvent × Except String Unit :=
  match get_git_history git with
  | Except.error e => ([], Except.error e)
  | Except.ok history =>
    let analyzed := collectAnalyzed cfg
    if check_version_continuity analyzed history = false then
      match analyze none with
      | Except.error e => ([RunEvent.analyze none], Except.error e)
      | Except.ok _ =>
        match get_git_version git with
        | Except.error e => ([RunEvent.analyze none], Except.error e)
        | Except.ok none => ([RunEvent.analyze none], Except.ok ())
        | Except.ok (some current) =>
          match cfg.output with
          | some o =>
            match parseOutput o with
            | some a =>
              let a2 := { a with analyzed_versions := some [current] }
              let cfg2 : Config := { cfg with output := some (ConfigOutput.parsable a2) }
              ([RunEvent.analyze none, RunEvent.save cfg2], Except.ok ())
            | none => ([RunEvent.analyze none], Except.ok ())
          | none => ([RunEvent.analyze none], Except.ok ())
    else
      let toAnalyze := history.filter fun v => !(analyzed.contains v)
      if toAnalyze.isEmpty then ([], Except.ok ())
      else
        let r := loopGo analyze cfg toAnalyze
        (r.1, r.2.2)

def wDiscAnalysis : ProjectAnalysis :=
  ⟨sampleSummary, [], none, some [("a"), ("c")]⟩

def wDiscGit : GitState :=
  ⟨true, Except.ok ("c"), Except.ok [("a"), ("b"), ("c")]⟩

def countSaves (evs : List RunEvent) : Nat :=
  (evs.filter fun e =>
    match e with
    | RunEvent.save _ => true
    | _ => false).length

def wLoopAnalysis : ProjectAnalysis :=
  ⟨sampleSummary, [], none, some [("a")]⟩

def wLoopCfg : Config := ⟨some (ConfigOutput.parsable wLoopAnalysis)⟩

def wLoopGit : GitState :=
  ⟨true, Except.ok ("c"), Except.ok [("a"), ("b"), ("c")]⟩

def wLoopAnalyze : Option String → Except String Unit := fun t =>
  if t = some ("c") then Except.error ("boom") else Except.ok ()

/-! ## Bounded retry with linear backoff (src/main.rs lines 526-551,
src/openai.rs lines 107-152; both copies have identical logic)

The loop `while retries < MAX_RETRIES` is embedded with the remaining
iteration budget `remaining = MAX_RETRIES - retries` as the structural
argument: the guard `retries < MAX_RETRIES` is `remaining > 0` and the
give-up test `retries < MAX_RETRIES - 1` is `remaining > 1`. `attempt n` is
the outcome of the `(n+1)`-th underlying `do_ai_analysis` call; `delays`
records the sleeps (in milliseconds) performed between attempts. The Rust
function only ever returns `Ok(Some _)` or `Ok(None)` - never `Err` - so the
result is modelled as the optional payload. -/
def MAX_RETRIES : Nat := 5

def RETRY_DELAY_MS : Nat := 1000

structure RetryTrace (α : Type) where
  attempts : Nat
  delays : List Nat
  result : Option α
deriving DecidableEq, Repr

def retryGo (attempt : Nat → Except String AIAnalysis) :
    Nat → Nat → RetryTrace AIAnalysis
  | 0, _ => ⟨0, [], none⟩
  | remaining + 1, retries =>
    match attempt retries with
    | Except.ok a => ⟨1, [], some a⟩
    | Except.error _ =>
      if remaining = 0 then ⟨1, [], none⟩
      else
        let t := retryGo attempt remaining (retries + 1)
        ⟨t.attempts + 1, RETRY_DELAY_MS * (retries + 1) :: t.delays, t.result⟩

/-- Embeds `do_ai_analysis_with_retry`: the retry loop started with
`retries = 0`. -/
def do_ai_analysis_with_retry (attempt : Nat → Except String AIAnalysis) :
    RetryTrace AIAnalysis :=
  retryGo attempt MAX_RETRIES 0

/-! ## Theorems -/

theorem hasAnalyzed_iff (f : String → Bool) (l : List String) :
    hasAnalyzed f l = true ↔ ∃ s c t, l = s ++ (c :: t) ∧ f c = true := by
  constructor
  · intro h
    simp only [hasAnalyzed, List.any_eq_true] at h
    obtain ⟨c, hc, hm⟩ := h
    obtain ⟨s, t, rfl⟩ := List.append_of_mem hc
    exact ⟨s, c, t, rfl, hm⟩
  · rintro ⟨s, c, t, rfl, hm⟩
    simp only [hasAnalyzed, List.any_eq_true]
    exact ⟨c, by simp, hm⟩

theorem hasGap_imp_hasAnalyzed (f : String → Bool) :
    ∀ l, hasGapThenAnalyzed f l = true → hasAnalyzed f l = true := by
  intro l
  induction l with
  | nil => simp [hasGapThenAnalyzed]
  | cons x r ih =>
    cases hx : f x with
    | true =>
      simp only [hasGapThenAnalyzed, hx, if_true, hasAnalyzed, List.any_cons,
        Bool.or_eq_true]
      intro _
      exact Or.inl trivial
    | false =>
      simp only [hasGapThenAnalyzed, hx, Bool.false_eq_true, if_false,
        Bool.or_eq_true, hasAnalyzed, List.any_cons]
      rintro (h | h)
      · exact Or.inr h
      · exact Or.inr (ih h)

theorem hasScatter_imp_hasGap (f : String → Bool) :
    ∀ l, hasScatter f l = true → hasGapThenAnalyzed f l = true := by
  intro l
  induction l with
  | nil => simp [hasScatter, hasGapThenAnalyzed]
  | cons x r ih =>
    cases hx : f x with
    | true =>
      simp only [hasScatter, hx, if_true, Bool.or_eq_true, hasGapThenAnalyzed]
      rintro (h | h)
      · exact h
      · exact ih h
    | false =>
      simp only [hasScatter, hx, Bool.false_eq_true, if_false,
        hasGapThenAnalyzed, Bool.or_eq_true]
      intro h
      exact Or.inr (ih h)

theorem continuityGo_true_false (f : String → Bool) :
    ∀ l, continuityGo f l true false = !(hasAnalyzed f l) := by
  intro l
  induction l with
  | nil => simp [continuityGo, hasAnalyzed]
  | cons x r ih =>
    cases hx : f x with
    | true => simp [continuityGo, hx, hasAnalyzed]
    | false =>
      simp only [continuityGo, hx, Bool.false_eq_true, if_false, ih,
        hasAnalyzed, List.any_cons, Bool.not_or]
      simp

theorem continuityGo_true_true (f : String → Bool) :
    ∀ l, continuityGo f l true true = !(hasGapThenAnalyzed f l) := by
  intro l
  induction l with
  | nil => simp [continuityGo, hasGapThenAnalyzed]
  | cons x r ih =>
    cases hx : f x with
    | true => simpa [continuityGo, hx, hasGapThenAnalyzed] using ih
    | false =>
      simp only [continuityGo, hx, Bool.false_eq_true, if_false, if_true,
        continuityGo_true_false, hasGapThenAnalyzed]
      cases hg : hasGapThenAnalyzed f r with
      | true => simp [hasGap_imp_hasAnalyzed f r hg]
      | false => simp

theorem continuityGo_false_true (f : String → Bool) :
    ∀ l, continuityGo f l false true = !(hasScatter f l) := by
  intro l
  induction l with
  | nil => simp [continuityGo, hasScatter]
  | cons x r ih =>
    cases hx : f x with
    | true =>
      simp only [continuityGo, hx, if_true, Bool.false_eq_true, if_false,
        continuityGo_true_true, hasScatter]
      cases hs : hasScatter f r with
      | true => simp [hasScatter_imp_hasGap f r hs]
      | false => simp
    | false => simpa [continuityGo, hx, hasScatter] using ih

theorem hasGap_iff (f : String → Bool) :
    ∀ l, hasGapThenAnalyzed f l = true ↔
      ∃ s b t c u, l = s ++ (b :: (t ++ (c :: u))) ∧
        f b = false ∧ f c = true := by
  intro l
  induction l with
  | nil =>
    simp only [hasGapThenAnalyzed, Bool.false_eq_true, false_iff]
    rintro ⟨s, b, t, c, u, h, -, -⟩
    exact absurd h.symm (by simp)
  | cons x r ih =>
    cases hx : f x with
    | true =>
      simp only [hasGapThenAnalyzed, hx, if_true]
      rw [ih]
      constructor
      · rintro ⟨s, b, t, c, u, rfl, hb, hc⟩
        exact ⟨x :: s, b, t, c, u, rfl, hb, hc⟩
      · rintro ⟨s, b, t, c, u, h, hb, hc⟩
        cases s with
        | nil =>
          simp only [List.nil_append, List.cons.injEq] at h
          rw [h.1] at hx
          rw [hx] at hb
          exact absurd hb (by simp)
        | cons s₀ s' =>
          simp only [List.cons_append, List.cons.injEq] at h
          exact ⟨s', b, t, c, u, h.2, hb, hc⟩
    | false =>
      simp only [hasGapThenAnalyzed, hx, Bool.false_eq_true, if_false,
        Bool.or_eq_true]
      constructor
      · rintro (h | h)
        · obtain ⟨s, c, t, rfl, hc⟩ := (hasAnalyzed_iff f r).mp h
          exact ⟨[], x, s, c, t, rfl, hx, hc⟩
        · obtain ⟨s, b, t, c, u, rfl, hb, hc⟩ := ih.mp h
          exact ⟨x :: s, b, t, c, u, rfl, hb, hc⟩
      · rintro ⟨s, b, t, c, u, h, hb, hc⟩
        cases s with
        | nil =>
          simp only [List.nil_append, List.cons.injEq] at h
          exact Or.inl ((hasAnalyzed_iff f r).mpr ⟨t, c, u, h.2, hc⟩)
        | cons s₀ s' =>
          simp only [List.cons_append, List.cons.injEq] at h
          exact Or.inr (ih.mpr ⟨s', b, t, c, u, h.2, hb, hc⟩)

theorem hasScatter_iff (versions : List String) :
    ∀ l, hasScatter (fun c => versions.contains c) l = true ↔
      scatteredPattern versions l := by
  intro l
  induction l with
  | nil =>
    simp only [hasScatter, Bool.false_eq_true, false_iff, scatteredPattern]
    rintro ⟨l₁, a, l₂, b, l₃, c, l₄, h, -, -, -⟩
    exact absurd h.symm (by simp)
  | cons x r ih =>
    cases hx : versions.contains x with
    | true =>
      simp only [hasScatter, hx, if_true, Bool.or_eq_true]
      constructor
      · rintro (h | h)
        · obtain ⟨s, b, t, c, u, rfl, hb, hc⟩ :=
            (hasGap_iff (fun c => versions.contains c) r).mp h
          exact ⟨[], x, s, b, t, c, u, rfl, hx, hb, hc⟩
        · obtain ⟨l₁, a, l₂, b, l₃, c, l₄, rfl, ha, hb, hc⟩ := ih.mp h
          exact ⟨x :: l₁, a, l₂, b, l₃, c, l₄, rfl, ha, hb, hc⟩
      · rintro ⟨l₁, a, l₂, b, l₃, c, l₄, h, ha, hb, hc⟩
        cases l₁ with
        | nil =>
          simp only [List.nil_append, List.cons.injEq] at h
          exact Or.inl ((hasGap_iff (fun c => versions.contains c) r).mpr
            ⟨l₂, b, l₃, c, l₄, h.2, hb, hc⟩)
        | cons y l₁' =>
          simp only [List.cons_append, List.cons.injEq] at h
          exact Or.inr (ih.mpr ⟨l₁', a, l₂, b, l₃, c, l₄, h.2, ha, hb, hc⟩)
    | false =>
      simp only [hasScatter, hx, Bool.false_eq_true, if_false]
      rw [ih]
      constructor
      · rintro ⟨l₁, a, l₂, b, l₃, c, l₄, rfl, ha, hb, hc⟩
        exact ⟨x :: l₁, a, l₂, b, l₃, c, l₄, rfl, ha, hb, hc⟩
      · rintro ⟨l₁, a, l₂, b, l₃, c, l₄, h, ha, hb, hc⟩
        cases l₁ with
        | nil =>
          simp only [List.nil_append, List.cons.injEq] at h
          rw [h.1] at hx
          rw [hx] at ha
          exact absurd ha (by simp)
        | cons y l₁' =>
          simp only [List.cons_append, List.cons.injEq] at h
          exact ⟨l₁', a, l₂, b, l₃, c, l₄, h.2, ha, hb, hc⟩

/-- Claim C1: `check_version_continuity` returns true on an empty analyzed
set; in general it returns false exactly when, walking the history in order,
an analyzed id appears again after an unanalyzed id that followed an analyzed
id (the analyzed ids must form one unbroken run); and the three concrete
examples from the specification hold. -/
theorem check_version_continuity_correct (versions history : List String) :
    (versions = [] → check_version_continuity versions history = true) ∧
    (check_version_continuity versions history = false ↔
      scatteredPattern versions history) ∧
    check_version_continuity [] ["h1", "h2", "h3"] = true ∧
    check_version_continuity ["h2"] ["h1", "h2", "h3"] = true ∧
    check_version_continuity ["h1", "h3"] ["h1", "h2", "h3"] = false := by
  refine ⟨?_, ?_, by decide, by decide, by decide⟩
  · rintro rfl
    simp [check_version_continuity]
  · cases hv : versions.isEmpty with
    | true =>
      have hnil : versions = [] := by
        cases versions with
        | nil => rfl
        | cons a l => simp at hv
      subst hnil
      simp only [check_version_continuity, List.isEmpty_nil, if_true]
      constructor
      · intro h
        exact absurd h (by simp)
      · rintro ⟨l₁, a, l₂, b, l₃, c, l₄, -, ha, -, -⟩
        simp at ha
    | false =>
      simp only [check_version_continuity, hv, Bool.false_eq_true, if_false]
      rw [continuityGo_false_true]
      rw [← hasScatter_iff]
      cases hs : hasScatter (fun c => versions.contains c) history with
      | true => simp
      | false => simp

/-- Witness for C1 at a concrete input: the empty analyzed set is contiguous
with history `["a"]`. -/
theorem check_version_continuity_correct_witness :
    check_version_continuity [] ["a"] = true :=
  (check_version_continuity_correct [] ["a"]).1 rfl

/-- Claim C10: `needs_reanalysis` returns false exactly when a current
version and a stored analysis exist and either the current version is in the
stored `analyzed_versions` list, or that list is absent and the stored
`git_version` equals the current version; with no current version it always
returns true. -/
theorem needs_reanalysis_correct (c : Option String)
    (s : Option ProjectAnalysis) :
    (needs_reanalysis c s = false ↔
      ∃ cv a, c = some cv ∧ s = some a ∧
        ((∃ vs, a.analyzed_versions = some vs ∧ cv ∈ vs) ∨
         (a.analyzed_versions = none ∧ a.git_version = some cv))) ∧
    needs_reanalysis none s = true := by
  refine ⟨?_, rfl⟩
  cases c with
  | none => simp [needs_reanalysis]
  | some cv =>
    cases s with
    | none => simp [needs_reanalysis]
    | some a =>
      obtain ⟨sum, fas, gv, av⟩ := a
      cases av with
      | some vs => simp [needs_reanalysis]
      | none =>
        cases gv with
        | none => simp [needs_reanalysis]
        | some st => simp [needs_reanalysis]

theorem codeStream_eq_streamT :
    ∀ (L : List (List Char)) (in_block : Bool),
      codeStream in_block L = streamT in_block (trimmedNonBlank L) := by
  intro L
  induction L with
  | nil => intro in_block; rfl
  | cons l rest ih =>
    intro in_block
    by_cases ht : (trimChars l).isEmpty = true
    · have hstep : lineStep in_block (trimChars l) = (LineClass.blank, in_block) := by
        simp [lineStep, ht]
      simp [codeStream, hstep, trimmedNonBlank, ht, ih in_block]
    · have ht' : (trimChars l).isEmpty = false := by simpa using ht
      rcases hstep : lineStep in_block (trimChars l) with ⟨cls, nb⟩
      cases cls with
      | blank =>
        exfalso
        cases hb : in_block with
        | true => simp [lineStep, ht', hb] at hstep
        | false =>
          simp only [lineStep, ht', hb, Bool.false_eq_true, if_false] at hstep
          split at hstep
          · simp at hstep
          · split at hstep
            · simp at hstep
            · simp at hstep
      | comment =>
        simp [codeStream, hstep, trimmedNonBlank, ht', streamT, ih nb]
      | code =>
        simp [codeStream, hstep, trimmedNonBlank, ht', streamT, ih nb]

theorem lineComment_prefix_shape (t : List Char)
    (h : lineCommentMarker.isPrefixOf t = true) :
    ∃ u, t = '/' :: ('/' :: u) := by
  cases t with
  | nil => simp [lineCommentMarker, List.isPrefixOf] at h
  | cons a t2 =>
    cases t2 with
    | nil => simp [lineCommentMarker, List.isPrefixOf] at h
    | cons b u =>
      simp only [lineCommentMarker, List.isPrefixOf, Bool.and_eq_true,
        beq_iff_eq] at h
      exact ⟨u, by rw [← h.1, ← h.2.1]⟩

theorem lineStep_lineComment (t : List Char)
    (h : lineCommentMarker.isPrefixOf t = true) :
    lineStep false t = (LineClass.comment, false) := by
  obtain ⟨u, rfl⟩ := lineComment_prefix_shape t h
  simp [lineStep, commentOpener, lineCommentMarker, List.isPrefixOf]

/-- Claim C5 (amended): the fingerprint never changes under edits that
preserve the trimmed non-blank line sequence - inserting or removing blank
lines and changing leading or trailing whitespace of lines - and a line
classified as a line comment outside a block comment contributes nothing to
the stream, so rewriting it into another line-comment line never changes the
fingerprint. (Edits to internal whitespace of code lines, or comment edits
that alter the block-comment state, can change it.) -/
theorem fingerprint_stability :
    (∀ T1 T2 : String,
        trimmedNonBlank (rustLines T1) = trimmedNonBlank (rustLines T2) →
        fingerprint T1 = fingerprint T2) ∧
    (∀ (l1 l2 : List Char) (rest : List (List Char)),
        lineCommentMarker.isPrefixOf (trimChars l1) = true →
        lineCommentMarker.isPrefixOf (trimChars l2) = true →
        codeStream false (l1 :: rest) = codeStream false (l2 :: rest)) := by
  constructor
  · intro T1 T2 h
    unfold fingerprint
    rw [codeStream_eq_streamT, codeStream_eq_streamT, h]
  · intro l1 l2 rest h1 h2
    simp [codeStream, lineStep_lineComment _ h1, lineStep_lineComment _ h2]

/-- Witness for the amended C5 at concrete inputs: adding blank lines and
leading whitespace preserves the fingerprint, and so does rewriting a line
comment. -/
theorem fingerprint_stability_witness :
    fingerprint ("a\n\n") = fingerprint ("  a") ∧
    codeStream false (['/', '/', 'x'] :: [['y']]) =
      codeStream false (['/', '/'] :: [['y']]) := by
  constructor
  · exact fingerprint_stability.1 ("a\n\n") ("  a") (by decide)
  · exact fingerprint_stability.2 ['/', '/', 'x'] ['/', '/'] [['y']]
      (by decide) (by decide)

/-- Claim C5 fails as stated: `"a = b"` and `"a=b"` differ only in
whitespace yet have different fingerprints (internal whitespace of a code
line survives trimming), and the two block-comment texts differ only in a
comment-only line yet have different fingerprints (the edit changes the
block-comment state of later lines). -/
theorem fingerprint_claim_counterexample :
    (differOnlyInWhitespace ("a = b") ("a=b") = true ∧
      fingerprint ("a = b") ≠ fingerprint ("a=b")) ∧
    (differOnlyInCommentLines ("/*\n*/\ncode") ("/*\nxx\ncode") = true ∧
      fingerprint ("/*\n*/\ncode") ≠ fingerprint ("/*\nxx\ncode")) := by
  exact ⟨⟨by decide, by decide⟩, ⟨by decide, by decide⟩⟩

theorem mergeStep_calls_sub_modified (ws : Workspace) (skip_ai : Bool)
    (api_key : String) (ai : String → Option AIAnalysis) (a : FileAnalysis)
    (q : String) (hq : q ∈ (mergeStep ws skip_ai api_key ai a).2) :
    q ∈ modified_files ws := by
  unfold mergeStep at hq
  by_cases hm : a.file_path ∈ modified_files ws
  · rw [if_pos hm] at hq
    rcases hc : lookupFile ws.workFs a.file_path with _ | content
    · rw [hc] at hq
      simp at hq
    · rw [hc] at hq
      by_cases he : aiEnabled skip_ai api_key = true
      · simp only [he, if_true] at hq
        have : q = a.file_path := by simpa using hq
        exact this ▸ hm
      · have he' : aiEnabled skip_ai api_key = false := by simpa using he
        simp [he'] at hq
  · rw [if_neg hm] at hq
    simp at hq

theorem mergeStep_unmodified (ws : Workspace) (skip_ai : Bool)
    (api_key : String) (ai : String → Option AIAnalysis) (a : FileAnalysis)
    (hm : a.file_path ∉ modified_files ws) :
    mergeStep ws skip_ai api_key ai a = (a, []) := by
  unfold mergeStep
  rw [if_neg hm]

/-- Claim C3 (amended): change detection in `update_report` is the git diff
between the HEAD tree and the working directory, not a stored fingerprint
(none is stored). For every path whose working content equals its HEAD
content, the merged record is the stored record unchanged - analysis payload
included - and the external collaborator is never invoked for that path. -/
theorem unchanged_file_reused (ws : Workspace) (old : ProjectAnalysis)
    (skip_ai : Bool) (api_key : String) (ai : String → Option AIAnalysis)
    (p : String) (h : lookupFile ws.headFs p = lookupFile ws.workFs p) :
    (∀ a ∈ old.file_analyses, a.file_path = p →
        mergeStep ws skip_ai api_key ai a = (a, [])) ∧
    p ∉ (update_report_merge ws old skip_ai api_key ai).calls := by
  have hmod : p ∉ modified_files ws := by
    intro hmem
    have hcond := List.of_mem_filter hmem
    simp [h] at hcond
  constructor
  · intro a ha hp
    exact mergeStep_unmodified ws skip_ai api_key ai a (hp ▸ hmod)
  · intro hp
    unfold update_report_merge at hp
    by_cases he : (modified_files ws).isEmpty = true
    · rw [if_pos he] at hp
      simp at hp
    · rw [if_neg he] at hp
      simp only [List.mem_flatMap] at hp
      obtain ⟨a, -, hq⟩ := hp
      exact hmod (mergeStep_calls_sub_modified ws skip_ai api_key ai a p hq)

/-- Witness for the amended C3: a record for an untouched path survives the
merge unchanged and triggers no collaborator call. -/
theorem unchanged_file_reused_witness :
    mergeStep ⟨[(("a.rs"), ("x"))], [(("a.rs"), ("x"))]⟩ false ("key")
        (fun _ => none) sampleRecord = (sampleRecord, []) ∧
    ("a.rs") ∉ (update_report_merge ⟨[(("a.rs"), ("x"))], [(("a.rs"), ("x"))]⟩
        ⟨sampleSummary, [sampleRecord], none, none⟩ false ("key")
        (fun _ => none)).calls := by
  have h := unchanged_file_reused ⟨[(("a.rs"), ("x"))], [(("a.rs"), ("x"))]⟩
    ⟨sampleSummary, [sampleRecord], none, none⟩ false ("key") (fun _ => none)
    ("a.rs") (by decide)
  exact ⟨h.1 sampleRecord (by simp) rfl, h.2⟩

/-- Claim C3 fails as stated: `"x\n"` and `"x"` have equal fingerprints (the
code-only stream ignores the trailing blank line), yet the git diff marks
the file modified, so `update_report` re-invokes the collaborator for it. -/
theorem fingerprint_equal_but_reanalyzed_counterexample :
    fingerprint ("x\n") = fingerprint ("x") ∧
    (update_report_merge ⟨[(("a.rs"), ("x\n"))], [(("a.rs"), ("x"))]⟩
        ⟨sampleSummary, [sampleRecord], none, none⟩ false ("key")
        (fun _ => none)).calls = [("a.rs")] := by
  exact ⟨by decide, by decide⟩

/-- Claim C4 (amended): a record whose path no longer exists in the working
directory is carried forward unchanged by the merge - it is never dropped. -/
theorem missing_file_carried_forward (ws : Workspace) (old : ProjectAnalysis)
    (skip_ai : Bool) (api_key : String) (ai : String → Option AIAnalysis)
    (a : FileAnalysis) (ha : a ∈ old.file_analyses)
    (hnone : lookupFile ws.workFs a.file_path = none) :
    a ∈ (update_report_merge ws old skip_ai api_key ai).analyses := by
  unfold update_report_merge
  by_cases he : (modified_files ws).isEmpty = true
  · rw [if_pos he]
    exact ha
  · rw [if_neg he]
    have hstep : (mergeStep ws skip_ai api_key ai a).1 = a := by
      unfold mergeStep
      by_cases hm : a.file_path ∈ modified_files ws
      · rw [if_pos hm, hnone]
      · rw [if_neg hm]
    exact List.mem_map.mpr ⟨a, ha, hstep⟩

/-- Witness for the amended C4 at a concrete input. -/
theorem missing_file_carried_forward_witness :
    goneRecord ∈ (update_report_merge ⟨[(("gone.rs"), ("x"))], []⟩
        ⟨sampleSummary, [goneRecord], none, none⟩ false ("") (fun _ => none)).analyses :=
  missing_file_carried_forward ⟨[(("gone.rs"), ("x"))], []⟩
    ⟨sampleSummary, [goneRecord], none, none⟩ false ("") (fun _ => none)
    goneRecord (by simp) (by decide)

/-- Claim C4 fails as stated: the file `gone.rs` is absent from the current
walk, yet the merged result still contains its record. -/
theorem deleted_file_not_dropped_counterexample :
    lookupFile ([] : List (String × String)) ("gone.rs") = none ∧
    (update_report_merge ⟨[(("gone.rs"), ("x"))], []⟩
        ⟨sampleSummary, [goneRecord], none, none⟩ false ("")
        (fun _ => none)).analyses = [goneRecord] ∧
    goneRecord.file_path = ("gone.rs") := by
  exact ⟨rfl, by decide, rfl⟩

/-- Claim C6 (amended): with no version control, `needs_reanalysis` always
reports that re-analysis is needed, and a run with AI analysis enabled
invokes the collaborator once for every discovered file - so the second of
two identical runs performs a collaborator call per file, not zero. (The two
runs do produce identical reports, the model being deterministic in the
collaborator.) -/
theorem no_git_always_reanalyzes (files : List (String × String))
    (api_key : String) (ai : String → Option AIAnalysis)
    (a : Option ProjectAnalysis) (h : ¬(api_key = "")) :
    needs_reanalysis none a = true ∧
    (main_run files false api_key ai).2 = files.map Prod.fst := by
  refine ⟨rfl, ?_⟩
  have he : aiEnabled false api_key = true := by
    simp [aiEnabled, h]
  induction files with
  | nil => rfl
  | cons f fs ih =>
    simp only [main_run, List.flatMap_cons, List.map_cons, he, if_true] at ih ⊢
    rw [ih]
    rfl

/-- Witness for the amended C6 at a concrete input. -/
theorem no_git_always_reanalyzes_witness :
    needs_reanalysis none none = true ∧
    (main_run [(("a.rs"), ("x"))] false ("key") (fun _ => none)).2 = [("a.rs")] := by
  have h := no_git_always_reanalyzes [(("a.rs"), ("x"))] ("key")
    (fun _ => none) none (by decide)
  exact ⟨h.1, h.2⟩

/-- Claim C6 fails as stated: with AI enabled, a run over one file makes one
collaborator call (`["a.rs"] ≠ []`), so the second of two identical runs
does not make zero re-analysis calls; and `needs_reanalysis` returns true
without version control even when a stored analysis exists. -/
theorem no_git_rerun_counterexample :
    needs_reanalysis none (some ⟨sampleSummary, [], none, none⟩) = true ∧
    (main_run [(("a.rs"), ("x"))] false ("key") (fun _ => none)).2 = [("a.rs")] ∧
    [("a.rs")] ≠ ([] : List String) := by
  exact ⟨rfl, by decide, by decide⟩

/-- Claim C2: a run whose stored analyzed-version set is not contiguous with
the current history performs the full re-analysis and saves a configuration
whose `analyzed_versions` is exactly the current revision. -/
theorem discontinuity_full_reset (cfg : Config) (git : GitState)
    (analyze : Option String → Except String Unit) (a : ProjectAnalysis)
    (history : List String) (current : String)
    (hgit : git.hasGitDir = true) (hrev : git.revwalk = Except.ok history)
    (hhead : git.headCommit = Except.ok current)
    (hout : cfg.output = some (ConfigOutput.parsable a))
    (hdisc : check_version_continuity (collectAnalyzed cfg) history = false)
    (hana : analyze none = Except.ok ()) :
    update_report_run cfg git analyze =
      ([RunEvent.analyze none,
        RunEvent.save { cfg with output := some (ConfigOutput.parsable
          { a with analyzed_versions := some [current] }) }],
       Except.ok ()) := by
  unfold update_report_run get_git_history get_git_version
  simp [hgit, hrev, hhead, hdisc, hout, hana, parseOutput]

/-- Witness for C2 at a concrete input: analyzed `{a, c}` is scattered in
history `[a, b, c]`, so the run does the full re-analysis and persists
`analyzed_versions = [c]`. -/
theorem discontinuity_full_reset_witness :
    update_report_run ⟨some (ConfigOutput.parsable wDiscAnalysis)⟩ wDiscGit
        (fun _ => Except.ok ()) =
      ([RunEvent.analyze none,
        RunEvent.save ⟨some (ConfigOutput.parsable
          ⟨sampleSummary, [], none, some [("c")]⟩)⟩],
       Except.ok ()) :=
  discontinuity_full_reset ⟨some (ConfigOutput.parsable wDiscAnalysis)⟩
    wDiscGit (fun _ => Except.ok ()) wDiscAnalysis [("a"), ("b"), ("c")] ("c")
    rfl rfl rfl rfl (by decide) rfl

theorem check_version_continuity_nil_history (versions : List String) :
    check_version_continuity versions [] = true := by
  unfold check_version_continuity
  split
  · rfl
  · rfl

/-- Claim C8 (amended): only the no-repository case degrades gracefully -
with no `.git` directory the current revision is reported absent, the
history empty, and the update run completes without events; a revision-walk
failure instead propagates as an error. -/
theorem no_repo_degrades (g : GitState) (cfg : Config)
    (analyze : Option String → Except String Unit) (h : g.hasGitDir = false) :
    get_git_version g = Except.ok none ∧
    get_git_history g = Except.ok [] ∧
    update_report_run cfg g analyze = ([], Except.ok ()) := by
  refine ⟨by simp [get_git_version, h], by simp [get_git_history, h], ?_⟩
  unfold update_report_run
  simp [get_git_history, h, check_version_continuity_nil_history]

/-- Witness for the amended C8 at a concrete input. -/
theorem no_repo_degrades_witness :
    get_git_version ⟨false, Except.ok ("h"), Except.ok []⟩ = Except.ok none ∧
    get_git_history ⟨false, Except.ok ("h"), Except.ok []⟩ = Except.ok [] ∧
    update_report_run ⟨none⟩ ⟨false, Except.ok ("h"), Except.ok []⟩
        (fun _ => Except.ok ()) = ([], Except.ok ()) :=
  no_repo_degrades ⟨false, Except.ok ("h"), Except.ok []⟩ ⟨none⟩
    (fun _ => Except.ok ()) rfl

/-- Claim C8 fails as stated: with a `.git` directory present but a failing
revision walk, `get_git_history` returns the error instead of an empty
history, and the update run aborts with that error instead of completing. -/
theorem revwalk_error_aborts_counterexample :
    get_git_history ⟨true, Except.ok ("h"), Except.error ("revwalk failed")⟩ =
      Except.error ("revwalk failed") ∧
    update_report_run ⟨none⟩
        ⟨true, Except.ok ("h"), Except.error ("revwalk failed")⟩
        (fun _ => Except.ok ()) = ([], Except.error ("revwalk failed")) :=
  ⟨rfl, rfl⟩

/-- Claim C9 (amended): when the stored output parses, the incremental branch
persists the configuration once per successfully analyzed version - the
snapshot is written incrementally during the run, not all-or-nothing at its
end. -/
theorem per_version_saves (analyze : Option String → Except String Unit) :
    ∀ (vs : List String) (cfg : Config) (a : ProjectAnalysis),
      cfg.output = some (ConfigOutput.parsable a) →
      (∀ v ∈ vs, analyze (some v) = Except.ok ()) →
      countSaves (loopGo analyze cfg vs).1 = vs.length := by
  intro vs
  induction vs with
  | nil =>
    intro cfg a h1 h2
    simp [loopGo, countSaves]
  | cons v rest ih =>
    intro cfg a h1 h2
    have hv : analyze (some v) = Except.ok () := h2 v (by simp)
    simp only [loopGo, hv, h1, parseOutput]
    simp only [countSaves, List.filter_append, List.length_append,
      List.filter_cons, List.length_cons]
    have htail := ih { cfg with output := some (ConfigOutput.parsable
        { a with analyzed_versions := some (a.analyzed_versions.getD [] ++ [v]) }) }
      { a with analyzed_versions := some (a.analyzed_versions.getD [] ++ [v]) }
      rfl (fun w hw => h2 w (by simp [hw]))
    simp only [countSaves] at htail
    simp [htail]

/-- Witness for the amended C9 at a concrete input: two versions analyzed
successfully, two saves. -/
theorem per_version_saves_witness :
    countSaves (loopGo (fun _ => Except.ok ()) wLoopCfg [("v1"), ("v2")]).1 = 2 :=
  per_version_saves (fun _ => Except.ok ()) [("v1"), ("v2")] wLoopCfg
    wLoopAnalysis rfl (fun _ _ => rfl)

/-- Claim C9 fails as stated: a run over history `[a, b, c]` with `a` already
analyzed saves the snapshot right after analyzing `b` and then stops with an
error while analyzing `c` - a destructive write of the stored snapshot
happened before the run reached its end, and the prior snapshot is not left
as it was. -/
theorem incremental_saves_counterexample :
    update_report_run wLoopCfg wLoopGit wLoopAnalyze =
      ([RunEvent.switchTo ("b"), RunEvent.analyze (some ("b")),
        RunEvent.cleanup ("b"),
        RunEvent.save ⟨some (ConfigOutput.parsable
          ⟨sampleSummary, [], none, some [("a"), ("b")]⟩)⟩,
        RunEvent.switchTo ("c"), RunEvent.analyze (some ("c")),
        RunEvent.cleanup ("c")],
       Except.error ("boom")) ∧
    (⟨some (ConfigOutput.parsable
        ⟨sampleSummary, [], none, some [("a"), ("b")]⟩)⟩ : Config) ≠ wLoopCfg := by
  refine ⟨rfl, by decide⟩

theorem retryGo_attempts_le (attempt : Nat → Except String AIAnalysis) :
    ∀ rem retries, (retryGo attempt rem retries).attempts ≤ rem := by
  intro rem
  induction rem with
  | zero => intro retries; simp [retryGo]
  | succ r ih =>
    intro retries
    rcases hatt : attempt retries with e | a
    · by_cases hr : r = 0
      · subst hr
        simp [retryGo, hatt]
      · simp only [retryGo, hatt, hr, if_false]
        have := ih (retries + 1)
        simp
        omega
    · simp [retryGo, hatt]

theorem retryGo_attempts_pos (attempt : Nat → Except String AIAnalysis) :
    ∀ rem retries, 0 < rem → 1 ≤ (retryGo attempt rem retries).attempts := by
  intro rem retries hrem
  cases rem with
  | zero => omega
  | succ r =>
    rcases hatt : attempt retries with e | a
    · by_cases hr : r = 0
      · subst hr
        simp [retryGo, hatt]
      · simp [retryGo, hatt, hr]
    · simp [retryGo, hatt]

theorem retryGo_delays (attempt : Nat → Except String AIAnalysis) :
    ∀ rem retries, (retryGo attempt rem retries).delays =
      (List.range ((retryGo attempt rem retries).attempts - 1)).map
        fun i => RETRY_DELAY_MS * (retries + i + 1) := by
  intro rem
  induction rem with
  | zero => intro retries; simp [retryGo]
  | succ r ih =>
    intro retries
    rcases hatt : attempt retries with e | a
    · by_cases hr : r = 0
      · subst hr
        simp [retryGo, hatt]
      · have hpos : 1 ≤ (retryGo attempt r (retries + 1)).attempts :=
          retryGo_attempts_pos attempt r (retries + 1) (by omega)
        simp only [retryGo, hatt, hr, if_false]
        have hsplit : (retryGo attempt r (retries + 1)).attempts + 1 - 1 =
            ((retryGo attempt r (retries + 1)).attempts - 1) + 1 := by omega
        rw [hsplit, List.range_succ_eq_map, List.map_cons, List.map_map]
        have harg : retries + 0 + 1 = retries + 1 := by omega
        rw [harg]
        have hfun : ((fun i => RETRY_DELAY_MS * (retries + i + 1)) ∘ Nat.succ) =
            fun i => RETRY_DELAY_MS * ((retries + 1) + i + 1) := by
          funext i
          simp only [Function.comp]
          rw [show retries + Nat.succ i + 1 = retries + 1 + i + 1 from by omega]
        rw [hfun, ← ih (retries + 1)]
    · simp [retryGo, hatt]

theorem retryGo_all_fail (attempt : Nat → Except String AIAnalysis)
    (h : ∀ i, ∃ e, attempt i = Except.error e) :
    ∀ rem retries, (retryGo attempt rem retries).result = none ∧
      (retryGo attempt rem retries).attempts = rem := by
  intro rem
  induction rem with
  | zero => intro retries; simp [retryGo]
  | succ r ih =>
    intro retries
    obtain ⟨e, he⟩ := h retries
    by_cases hr : r = 0
    · subst hr
      simp [retryGo, he]
    · simp only [retryGo, he, hr, if_false]
      have := ih (retries + 1)
      simp [this.1, this.2]

/-- Claim C7: the AI-analysis call is attempted at most `MAX_RETRIES = 5`
times; the sleeps between attempts are `RETRY_DELAY_MS * 1, * 2, ...` -
linearly increasing backoff; and when every attempt fails the operation
returns no payload (`Ok(None)` in the Rust signature) after exactly 5
attempts, rather than an error. -/
theorem retry_bounded_linear (attempt : Nat → Except String AIAnalysis) :
    (do_ai_analysis_with_retry attempt).attempts ≤ MAX_RETRIES ∧
    (do_ai_analysis_with_retry attempt).delays =
      (List.range ((do_ai_analysis_with_retry attempt).attempts - 1)).map
        (fun i => RETRY_DELAY_MS * (i + 1)) ∧
    ((∀ i, ∃ e, attempt i = Except.error e) →
      (do_ai_analysis_with_retry attempt).result = none ∧
      (do_ai_analysis_with_retry attempt).attempts = MAX_RETRIES) := by
  refine ⟨retryGo_attempts_le attempt MAX_RETRIES 0, ?_, ?_⟩
  · have := retryGo_delays attempt MAX_RETRIES 0
    simpa [do_ai_analysis_with_retry] using this
  · intro h
    exact retryGo_all_fail attempt h MAX_RETRIES 0

/-- Witness for C7 at a concrete input: an always-failing attempt yields no
payload after exactly `MAX_RETRIES` attempts. -/
theorem retry_bounded_linear_witness :
    (do_ai_analysis_with_retry (fun _ => Except.error ("e"))).result = none ∧
    (do_ai_analysis_with_retry (fun _ => Except.error ("e"))).attempts = MAX_RETRIES :=
  (retry_bounded_linear (fun _ => Except.error ("e"))).2.2
    (fun _ => ⟨("e"), rfl⟩)

end Rs2Know
